import Mathlib

/-!
Verification of the AI-Compare service's structure-inference and extraction
engine against its specification. The Python sources (unified_parser.py,
main.py, several_site_analyzer.py, src/scraper.py, src/utils.py) are embedded
shallowly: strings are Lean strings, regular-expression searches are spelled
out as deterministic scanners equivalent to the source patterns, machine
floats are modelled with exact rationals, the HTML parser and HTTP client
collaborators are oracles passed as function arguments, and Python exception
flow is explicit data. Character classes follow the ASCII fragment of
Python's `\s`, `\d` and `\w`, and lower-casing is ASCII, which is exact for
every input used in the theorems below.
-/

namespace AICompare

/-- ASCII fragment of Python's whitespace class `\s`. -/
def pyIsSpace (c : Char) : Bool :=
  c = ' ' || c = '\t' || c = '\n' || c = '\r' || c = '\x0b' || c = '\x0c'

/-- ASCII fragment of Python's word class `\w` (used for `\b` boundaries). -/
def isWordChar (c : Char) : Bool :=
  c.isAlphanum || c = '_'

/-- Python `str.strip()` on a character list. -/
def pyStrip (l : List Char) : List Char :=
  ((l.dropWhile pyIsSpace).reverse.dropWhile pyIsSpace).reverse

/-- Collapse every maximal run of whitespace to one space, as
`re.sub(r"\s+", " ", s)` does. The flag records whether the previous
character was whitespace. -/
def collapseRuns : Bool → List Char → List Char
  | _, [] => []
  | prevWs, c :: t =>
    if pyIsSpace c then
      if prevWs then collapseRuns true t else ' ' :: collapseRuns true t
    else c :: collapseRuns false t

/-- unified_parser.py `_clean_text`:
`re.sub(r"\s+", " ", text.strip()) if text else ""`. -/
def clean_text (text : String) : String :=
  if text = "" then "" else ⟨collapseRuns false (pyStrip text.data)⟩

/-- Python `str.lower()` on its ASCII fragment, character by character
(kept kernel-computable, unlike `String.toLower`). -/
def pyToLower (text : String) : String :=
  ⟨text.data.map Char.toLower⟩

/-- Whether `pat` occurs as a contiguous substring, Python's `pat in s`. -/
def substrIn (pat : List Char) : List Char → Bool
  | [] => pat.isEmpty
  | c :: t => pat.isPrefixOf (c :: t) || substrIn pat t

/-- One-or-more digits, split off the front: the greedy `\d+`. -/
def takeDigits (l : List Char) : List Char × List Char :=
  (l.takeWhile Char.isDigit, l.dropWhile Char.isDigit)

/-- The greedy `\s*`. -/
def skipWs (l : List Char) : List Char :=
  l.dropWhile pyIsSpace

/-- Match the number group `(\d+(?:[,\.]\d+)?)` at the front of the input,
returning the captured characters and the rest. For these price and data
patterns the greedy choice never needs backtracking: after the optional
part the pattern continues with `\s*` and a non-digit literal, which can
never match at a digit, a comma or a dot. -/
def numTok (l : List Char) : Option (List Char × List Char) :=
  match takeDigits l with
  | ([], _) => none
  | (ds, rest) =>
    match rest with
    | c :: r2 =>
      if (c = ',' || c = '.') && (match r2 with | d :: _ => d.isDigit | [] => false) then
        let (ds2, r3) := takeDigits r2
        some (ds ++ c :: ds2, r3)
      else some (ds, rest)
    | [] => some (ds, [])

/-- Match a literal (given lower-case) case-insensitively at the front,
returning the rest of the input. -/
def litCI : List Char → List Char → Option (List Char)
  | [], l => some l
  | _ :: _, [] => none
  | c :: cs, d :: ds => if d.toLower = c then litCI cs ds else none

/-- A `\b` word boundary between a word character and the start of `l`. -/
def boundaryAt (l : List Char) : Bool :=
  match l with
  | [] => true
  | c :: _ => !isWordChar c

/-- Attempt `(\d+(?:[,\.]\d+)?)\s*UNIT\b` at this position (IGNORECASE). -/
def priceUnitAfterAt (unit : List Char) (l : List Char) : Option (List Char) :=
  match numTok l with
  | none => none
  | some (tok, r) =>
    match litCI unit (skipWs r) with
    | none => none
    | some r2 => if boundaryAt r2 then some tok else none

/-- Attempt `\bkr\s*(\d+(?:[,\.]\d+)?)` at this position; `prev` is the
character before the position, for the leading boundary. -/
def priceUnitBeforeAt (l : List Char) (prev : Option Char) : Option (List Char) :=
  if (match prev with | none => true | some c => !isWordChar c) then
    match litCI ['k', 'r'] l with
    | none => none
    | some r =>
      match numTok (skipWs r) with
      | none => none
      | some (tok, _) => some tok
  else none

/-- Attempt `(\d+(?:[,\.]\d+)?)\s*,-` at this position. -/
def priceTrailingAt (l : List Char) : Option (List Char) :=
  match numTok l with
  | none => none
  | some (tok, r) =>
    match skipWs r with
    | ',' :: '-' :: _ => some tok
    | _ => none

/-- Leftmost match of a position matcher, as `re.search` scans: every start
position in order, the end-of-string position included. -/
def searchPos {α : Type} (f : List Char → Option Char → Option α) :
    List Char → Option Char → Option α
  | [], prev => f [] prev
  | c :: t, prev =>
    match f (c :: t) prev with
    | some tok => some tok
    | none => searchPos f t (some c)

/-- unified_parser.py `_extract_price` pattern list, tried in order; the
result is the first pattern's leftmost captured group. -/
def priceFirstMatch (l : List Char) : Option (List Char) :=
  match searchPos (fun s _ => priceUnitAfterAt ['k', 'r'] s) l none with
  | some tok => some tok
  | none =>
    match searchPos (fun s _ => priceUnitAfterAt ['n', 'o', 'k'] s) l none with
    | some tok => some tok
    | none =>
      match searchPos priceUnitBeforeAt l none with
      | some tok => some tok
      | none => searchPos (fun s _ => priceTrailingAt s) l none

/-- Python `price.replace(",", ".")`. -/
def commaToDot (l : List Char) : List Char :=
  l.map fun c => if c = ',' then '.' else c

/-- unified_parser.py `_extract_price`: empty text yields "", a pattern
match yields the normalized amount suffixed with " kr", otherwise the
whitespace-collapsed text. -/
def extract_price (text : String) : String :=
  if text = "" then ""
  else
    match priceFirstMatch text.data with
    | some tok => (⟨commaToDot tok⟩ : String) ++ " kr"
    | none => clean_text text

/-- unified_parser.py / main.py unlimited marker keyword set. -/
def unlimited_keywords : List String :=
  ["ubegrenset", "unlimited", "fri data", "uten grense"]

/-- Attempt `(\d+)\s*giga\b` at this position (the giga data pattern has no
decimal part). -/
def dataGigaAt (l : List Char) : Option (List Char) :=
  match takeDigits l with
  | ([], _) => none
  | (ds, rest) =>
    match litCI ['g', 'i', 'g', 'a'] (skipWs rest) with
    | none => none
    | some r2 => if boundaryAt r2 then some ds else none

/-- Attempt `(\d+(?:[,\.]\d+)?)\s*UNIT\b` at this position, also returning
the unit characters as they appear in the text, because the source takes
`match.group(0)[-2:]` as the unit. -/
def dataUnitAt (unit : List Char) (l : List Char) : Option (List Char × List Char) :=
  match numTok l with
  | none => none
  | some (tok, r) =>
    let afterWs := skipWs r
    match litCI unit afterWs with
    | none => none
    | some r2 => if boundaryAt r2 then some (tok, afterWs.take unit.length) else none

/-- The four data patterns of `_extract_data_amount` (GB, TB, MB, then
giga), tried in source order, yielding the amount group and the unit text;
for the giga pattern the source hard-codes the unit "GB". -/
def dataFirstMatch (l : List Char) : Option (List Char × List Char) :=
  match searchPos (fun s _ => dataUnitAt ['g', 'b'] s) l none with
  | some r => some r
  | none =>
    match searchPos (fun s _ => dataUnitAt ['t', 'b'] s) l none with
    | some r => some r
    | none =>
      match searchPos (fun s _ => dataUnitAt ['m', 'b'] s) l none with
      | some r => some r
      | none =>
        match searchPos (fun s _ => dataGigaAt s) l none with
        | some ds => some (ds, ['G', 'B'])
        | none => none

/-- unified_parser.py `_extract_data_amount`: the unlimited keyword scan
precedes every numeric pattern, so any keyword hit returns "Unlimited". -/
def extract_data_amount (text : String) : String :=
  if text = "" then ""
  else
    if unlimited_keywords.any (fun k => substrIn k.data (pyToLower text).data) then "Unlimited"
    else
      match dataFirstMatch text.data with
      | some (tok, unit) => (⟨commaToDot tok⟩ : String) ++ " " ++ (⟨unit⟩ : String)
      | none => clean_text text

/-- Retry loop of `_fetch_with_retry` (unified_parser.py) and `_fetch_page`
(main.py). `outcome i` models attempt number `i`: `some body` for an HTTP
200 response, `none` for a timeout, a non-200 status or a transport
exception (all of which the source catches and logs). The first argument is
the number of attempts still allowed (`max_retries - i`), so `1 ≤ remaining`
after a failure is exactly the source's `attempt < max_retries - 1` guard on
the `asyncio.sleep(2 ** attempt)` backoff. Returns the body (none after
exhaustion), the number of attempts performed, and the sleeps in seconds. -/
def fetchLoop (outcome : Nat → Option String) : Nat → Nat → Option String × Nat × List Nat
  | 0, _ => (none, 0, [])
  | remaining + 1, i =>
    match outcome i with
    | some body => (some body, 1, [])
    | none =>
      let rest := fetchLoop outcome remaining (i + 1)
      (rest.1, rest.2.1 + 1, (if 1 ≤ remaining then [2 ^ i] else []) ++ rest.2.2)

/-- `_fetch_with_retry(url, max_retries)`: run the attempt loop from
attempt 0. -/
def fetch_with_retry (outcome : Nat → Option String) (max_retries : Nat) :
    Option String × Nat × List Nat :=
  fetchLoop outcome max_retries 0

/-! ### Supporting lemmas for the text normalizer -/

theorem mem_dropWhile_of_not (p : Char → Bool) (l : List Char) (c : Char)
    (hc : c ∈ l) (hp : p c = false) : c ∈ l.dropWhile p := by
  induction l with
  | nil => cases hc
  | cons a t ih =>
    rw [List.dropWhile_cons]
    by_cases ha : p a = true
    · rw [if_pos ha]
      rcases List.mem_cons.mp hc with h1 | h1
      · rw [h1] at hp; rw [hp] at ha; cases ha
      · exact ih h1
    · rw [if_neg ha]
      exact hc

theorem mem_pyStrip (l : List Char) (c : Char) (hc : c ∈ l)
    (hp : pyIsSpace c = false) : c ∈ pyStrip l := by
  unfold pyStrip
  rw [List.mem_reverse]
  refine mem_dropWhile_of_not _ _ _ ?_ hp
  rw [List.mem_reverse]
  exact mem_dropWhile_of_not _ _ _ hc hp

theorem mem_collapseRuns (l : List Char) (b : Bool) (c : Char) (hc : c ∈ l)
    (hp : pyIsSpace c = false) : c ∈ collapseRuns b l := by
  induction l generalizing b with
  | nil => cases hc
  | cons a t ih =>
    unfold collapseRuns
    by_cases ha : pyIsSpace a = true
    · have hca : c ≠ a := by
        intro h
        rw [h, ha] at hp
        cases hp
      have hct : c ∈ t := by
        rcases List.mem_cons.mp hc with h1 | h1
        · exact absurd h1 hca
        · exact h1
      rw [if_pos ha]
      cases b with
      | true =>
        show c ∈ collapseRuns true t
        exact ih true hct
      | false =>
        show c ∈ ' ' :: collapseRuns true t
        exact List.mem_cons_of_mem _ (ih true hct)
    · rw [if_neg ha]
      rcases List.mem_cons.mp hc with h1 | h1
      · rw [h1]
        exact List.mem_cons_self _ _
      · exact List.mem_cons_of_mem _ (ih false h1)

theorem comma_not_mem_commaToDot (l : List Char) : ',' ∉ commaToDot l := by
  unfold commaToDot
  intro h
  rcases List.mem_map.mp h with ⟨c, _, hc⟩
  by_cases h2 : c = ','
  · rw [if_pos h2] at hc
    cases hc
  · rw [if_neg h2] at hc
    exact h2 hc

theorem mk_ne_empty (l : List Char) (h : l ≠ []) : (⟨l⟩ : String) ≠ "" := by
  intro he
  exact h (congrArg String.data he)

theorem clean_text_ne_empty (text : String) (c : Char) (hc : c ∈ text.data)
    (hp : pyIsSpace c = false) : clean_text text ≠ "" := by
  have hne : text ≠ "" := by
    intro he
    rw [he] at hc
    cases hc
  unfold clean_text
  rw [if_neg hne]
  exact mk_ne_empty _ (List.ne_nil_of_mem
    (mem_collapseRuns _ false c (mem_pyStrip _ c hc hp) hp))

/-! ### Claims C2 and C3: the Text Normalizer -/

/-- C2 (amended): when one of the four implemented price patterns matches —
a number followed by "kr" or "NOK", a number preceded by "kr" (there is no
"NOK"-prefix pattern), or a number with a trailing ",-" — the result is the
first matched amount, its decimal comma replaced by a dot, suffixed with
" kr"; when none matches, the result is the whitespace-collapsed input,
which is non-empty whenever the input contains a non-whitespace character
(a whitespace-only input collapses to the empty string). -/
theorem extract_price_spec (text : String) :
    (∀ tok, priceFirstMatch text.data = some tok →
        extract_price text = (⟨commaToDot tok⟩ : String) ++ " kr" ∧ ',' ∉ commaToDot tok)
    ∧ (priceFirstMatch text.data = none → extract_price text = clean_text text)
    ∧ (∀ c, c ∈ text.data → pyIsSpace c = false → extract_price text ≠ "") := by
  refine ⟨?_, ?_, ?_⟩
  · intro tok hm
    have hne : text ≠ "" := by
      intro he
      rw [he] at hm
      have h0 : priceFirstMatch ("" : String).data = none := rfl
      rw [h0] at hm
      cases hm
    unfold extract_price
    rw [if_neg hne, hm]
    exact ⟨rfl, comma_not_mem_commaToDot tok⟩
  · intro hm
    by_cases hne : text = ""
    · rw [hne]
      rfl
    · unfold extract_price
      rw [if_neg hne, hm]
  · intro c hc hp
    have hne : text ≠ "" := by
      intro he
      rw [he] at hc
      cases hc
    unfold extract_price
    rw [if_neg hne]
    cases hpm : priceFirstMatch text.data with
    | none => exact clean_text_ne_empty text c hc hp
    | some tok =>
      show (⟨commaToDot tok⟩ : String) ++ " kr" ≠ ""
      intro he
      have hd : commaToDot tok ++ [' ', 'k', 'r'] = [] := congrArg String.data he
      simp at hd

/-- C2 counterexample, refuting the claim as stated twice over. First, the
claim says the fallback is "non-empty whenever the input is non-empty", but
a whitespace-only input collapses to "". Second, the claim lists a number
preceded by "NOK" among the matching patterns, but the pattern list has no
NOK-prefix entry (only `\bkr\s*`), so "NOK 299" falls through to the
fallback text instead of becoming "299 kr". -/
theorem extract_price_counterexample :
    (extract_price " " = "" ∧ (" " : String) ≠ "")
    ∧ (extract_price "NOK 299" = "NOK 299"
        ∧ ("NOK 299" : String) ≠ "299 kr") := by
  exact ⟨⟨rfl, by decide⟩, ⟨rfl, by decide⟩⟩

/-- C3: whenever any unlimited keyword occurs (in any letter case, the scan
lower-cases the text), `_extract_data_amount` returns the literal
"Unlimited", regardless of numeric amounts in the same text. -/
theorem data_amount_unlimited (text : String)
    (h : unlimited_keywords.any (fun k => substrIn k.data (pyToLower text).data) = true) :
    extract_data_amount text = "Unlimited" := by
  have hne : text ≠ "" := by
    intro he
    rw [he] at h
    exact absurd h (by decide)
  unfold extract_data_amount
  rw [if_neg hne, if_pos h]

/-- C3 witness: an upper-case keyword together with a numeric GB amount. -/
theorem data_amount_unlimited_witness :
    extract_data_amount "UBEGRENSET data + 50 GB" = "Unlimited" :=
  data_amount_unlimited "UBEGRENSET data + 50 GB" (by decide)

/-! ### Claim C6: the Fetcher retry loop -/

theorem fetchLoop_all_fail (outcome : Nat → Option String) :
    ∀ remaining i, (∀ j, i ≤ j → j < i + remaining → outcome j = none) →
      fetchLoop outcome remaining i
        = (none, remaining, (List.range' i (remaining - 1)).map fun j => 2 ^ j) := by
  intro remaining
  induction remaining with
  | zero => intro i _; rfl
  | succ r ih =>
    intro i h
    have h0 : outcome i = none := h i le_rfl (by omega)
    have hrest := ih (i + 1) (fun j h1 h2 => h j (by omega) (by omega))
    unfold fetchLoop
    rw [h0, hrest]
    cases r with
    | zero => rfl
    | succ r2 =>
      have h1 : (1 ≤ r2 + 1) = True := by simp
      simp only [h1, if_true]
      have h2 : List.range' i (r2 + 1 + 1 - 1) = i :: List.range' (i + 1) (r2 + 1 - 1) := by
        rw [show r2 + 1 + 1 - 1 = (r2 + 1 - 1) + 1 by omega]
        rw [List.range'_succ]
      rw [h2]
      rfl

/-- C6 (amended): when every attempt fails, the fetcher performs exactly
`max_retries` attempts, sleeps `2^attempt` seconds after each failed
attempt except the final one (attempts `0 .. max_retries - 2`), and returns
no body instead of raising. -/
theorem fetch_retry_all_fail (outcome : Nat → Option String) (max_retries : Nat)
    (h : ∀ i, i < max_retries → outcome i = none) :
    fetch_with_retry outcome max_retries
      = (none, max_retries, (List.range (max_retries - 1)).map fun i => 2 ^ i) := by
  unfold fetch_with_retry
  rw [List.range_eq_range']
  exact fetchLoop_all_fail outcome max_retries 0 (fun j _ h2 => h j (by omega))

/-- C6 witness: three always-failing attempts give three tries, backoff
sleeps of 1 and 2 seconds, and no body. -/
theorem fetch_retry_all_fail_witness :
    fetch_with_retry (fun _ => none) 3 = (none, 3, [1, 2]) :=
  (fetch_retry_all_fail (fun _ => none) 3 (fun _ _ => rfl)).trans (by decide)

/-- C6 counterexample: for `max_retries = 3` the total backoff is
1 + 2 = 3 seconds, not the 1 + 2 + 4 = 7 seconds the claim states: there is
no sleep after the final attempt. -/
theorem fetch_retry_backoff_counterexample :
    (fetch_with_retry (fun _ => none) 3).2.2.sum = 3 ∧ (3 : Nat) ≠ 1 + 2 + 4 := by
  decide

/-! ### Structure Analyzer: container candidates and confidence -/

/-- Keyword set of `_calculate_container_confidence` (unified_parser.py). -/
def confidence_keywords : List String :=
  ["kr", "gb", "plan", "mobil", "abonnement", "måned"]

/-- Fraction of the keyword set present in one element's lower-cased text:
`sum(1 for keyword in keywords if keyword in text) / len(keywords)`, the
float arithmetic modelled exactly in ℚ. -/
def elemFrac (text : String) : ℚ :=
  ((confidence_keywords.countP fun k => substrIn k.data (pyToLower text).data : Nat) : ℚ)
    / ((confidence_keywords.length : Nat) : ℚ)

/-- unified_parser.py `_calculate_container_confidence`: 0 for no elements,
otherwise the sum of `elemFrac` over the first three elements (given by
their `get_text()`), divided by `min(len(elements), 3)`. -/
def calculate_container_confidence (texts : List String) : ℚ :=
  if texts = [] then 0
  else ((texts.take 3).map elemFrac).sum / ((min texts.length 3 : Nat) : ℚ)

/-- A row of `_analyze_plan_containers`: selector, match count, 100-character
sample text and confidence. -/
structure ContainerCandidate where
  selector : String
  count : Nat
  sample_text : String
  confidence : ℚ
deriving DecidableEq

/-- The fixed generic card patterns of `_analyze_plan_containers`. -/
def container_patterns : List String :=
  [".plan", ".product", ".card", ".subscription", ".abonnement",
   ".offer", ".package", ".tariff", "[class*=\"plan\"]",
   "[class*=\"product\"]", "[class*=\"subscription\"]"]

/-- Candidate generation of `_analyze_plan_containers`: `select` stands for
the BeautifulSoup `soup.select` collaborator and yields the `get_text()` of
each matched element in document order; a pattern becomes a candidate only
when it matches at least two elements. -/
def candidate_list (select : String → List String) : List ContainerCandidate :=
  container_patterns.filterMap fun pat =>
    let elements := select pat
    if 2 ≤ elements.length then
      some { selector := pat, count := elements.length,
             sample_text := ⟨(elements.headD "").data.take 100⟩,
             confidence := calculate_container_confidence elements }
    else none

/-- Insert a candidate in front of the first element with confidence not
above its own. -/
def insertByConfidence (c : ContainerCandidate) :
    List ContainerCandidate → List ContainerCandidate
  | [] => [c]
  | d :: t =>
    if d.confidence ≤ c.confidence then c :: d :: t else d :: insertByConfidence c t

/-- Python's `sorted(containers, key=lambda x: x["confidence"], reverse=True)`
is the stable descending sort by confidence; a stable sort is determined
uniquely by its comparison, so this insertion sort computes exactly it: an
element ends up before precisely the later elements of strictly smaller
confidence, and equal confidences keep generation order. -/
def sortByConfidenceDesc : List ContainerCandidate → List ContainerCandidate
  | [] => []
  | c :: t => insertByConfidence c (sortByConfidenceDesc t)

/-- unified_parser.py `_analyze_plan_containers`. -/
def analyze_plan_containers (select : String → List String) : List ContainerCandidate :=
  sortByConfidenceDesc (candidate_list select)

/-- A row of several_site_analyzer.py `analyze_page`'s
`potential_plan_containers` list: no confidence and no sorting there. -/
structure PlanContainer where
  selector : String
  count : Nat
  sample_text : String
deriving DecidableEq

/-- The container selectors of several_site_analyzer.py `analyze_page`. -/
def several_container_selectors : List String :=
  [".plan", ".product", ".card", ".subscription", ".abonnement",
   ".offer", ".package", ".tariff", ".mobile-plan",
   "[class*=\"plan\"]", "[class*=\"product\"]", "[class*=\"card\"]",
   "[class*=\"subscription\"]", "[id*=\"plan\"]"]

/-- several_site_analyzer.py `analyze_page`, container scan: a selector
contributes whenever it matches at least one element (`if elements:`). -/
def analyze_page_plan_containers (select : String → List String) : List PlanContainer :=
  several_container_selectors.filterMap fun pat =>
    let elements := select pat
    if elements = [] then none
    else
      some { selector := pat, count := elements.length,
             sample_text := ⟨(elements.headD "").data.take 100⟩ }

/-! ### Supporting lemmas for the analyzer -/

theorem elemFrac_nonneg (t : String) : 0 ≤ elemFrac t := by
  unfold elemFrac
  positivity

theorem elemFrac_le_one (t : String) : elemFrac t ≤ 1 := by
  unfold elemFrac
  rw [div_le_one (by norm_num [confidence_keywords])]
  exact_mod_cast List.countP_le_length _

theorem perm_insertByConfidence (c : ContainerCandidate) (l : List ContainerCandidate) :
    (insertByConfidence c l).Perm (c :: l) := by
  induction l with
  | nil => exact List.Perm.refl _
  | cons d t ih =>
    unfold insertByConfidence
    by_cases hd : d.confidence ≤ c.confidence
    · rw [if_pos hd]
    · rw [if_neg hd]
      exact (ih.cons d).trans (List.Perm.swap c d t)

theorem pairwise_insertByConfidence (c : ContainerCandidate) (l : List ContainerCandidate)
    (h : l.Pairwise fun a b => b.confidence ≤ a.confidence) :
    (insertByConfidence c l).Pairwise fun a b => b.confidence ≤ a.confidence := by
  induction l with
  | nil => simp [insertByConfidence]
  | cons d t ih =>
    rw [List.pairwise_cons] at h
    unfold insertByConfidence
    by_cases hd : d.confidence ≤ c.confidence
    · rw [if_pos hd]
      rw [List.pairwise_cons]
      refine ⟨?_, List.pairwise_cons.mpr h⟩
      intro x hx
      rcases List.mem_cons.mp hx with h1 | h1
      · rw [h1]; exact hd
      · exact le_trans (h.1 x h1) hd
    · rw [if_neg hd]
      rw [List.pairwise_cons]
      refine ⟨?_, ih h.2⟩
      intro x hx
      rcases List.mem_cons.mp ((perm_insertByConfidence c t).mem_iff.mp hx) with h1 | h1
      · rw [h1]
        exact le_of_lt (lt_of_not_le hd)
      · exact h.1 x h1

theorem perm_sortByConfidenceDesc (l : List ContainerCandidate) :
    (sortByConfidenceDesc l).Perm l := by
  induction l with
  | nil => exact List.Perm.refl _
  | cons c t ih =>
    exact (perm_insertByConfidence c (sortByConfidenceDesc t)).trans (ih.cons c)

theorem pairwise_sortByConfidenceDesc (l : List ContainerCandidate) :
    (sortByConfidenceDesc l).Pairwise fun a b => b.confidence ≤ a.confidence := by
  induction l with
  | nil => exact List.Pairwise.nil
  | cons c t ih => exact pairwise_insertByConfidence c _ ih

/-! ### Claim C9: the confidence score -/

/-- C9: the confidence of a candidate is always within [0, 1]; it is 0 for
an empty element list and otherwise averages, over at most the first three
sampled elements, the fraction of the domain-keyword set found in each
element's text. -/
theorem container_confidence_spec (texts : List String) :
    0 ≤ calculate_container_confidence texts
    ∧ calculate_container_confidence texts ≤ 1
    ∧ (texts = [] → calculate_container_confidence texts = 0)
    ∧ (texts ≠ [] →
        calculate_container_confidence texts * ((min texts.length 3 : Nat) : ℚ)
          = ((texts.take 3).map elemFrac).sum) := by
  by_cases h : texts = []
  · subst h
    refine ⟨le_refl 0, ?_, fun _ => rfl, fun hne => absurd rfl hne⟩
    norm_num [calculate_container_confidence]
  · have hlen : 0 < texts.length := List.length_pos.mpr h
    have hmin : 0 < min texts.length 3 := by omega
    have hminq : (0 : ℚ) < ((min texts.length 3 : Nat) : ℚ) := by exact_mod_cast hmin
    have hsum0 : 0 ≤ ((texts.take 3).map elemFrac).sum := by
      refine List.sum_nonneg ?_
      intro x hx
      rcases List.mem_map.mp hx with ⟨t, _, ht⟩
      rw [← ht]
      exact elemFrac_nonneg t
    have hsum1 : ((texts.take 3).map elemFrac).sum ≤ ((min texts.length 3 : Nat) : ℚ) := by
      have hle : ∀ x ∈ (texts.take 3).map elemFrac, x ≤ 1 := by
        intro x hx
        rcases List.mem_map.mp hx with ⟨t, _, ht⟩
        rw [← ht]
        exact elemFrac_le_one t
      have h2 := List.sum_le_card_nsmul ((texts.take 3).map elemFrac) 1 hle
      rw [nsmul_eq_mul, mul_one, List.length_map, List.length_take, Nat.min_comm] at h2
      exact h2
    have hval : calculate_container_confidence texts
        = ((texts.take 3).map elemFrac).sum / ((min texts.length 3 : Nat) : ℚ) := by
      unfold calculate_container_confidence
      rw [if_neg h]
    refine ⟨?_, ?_, fun he => absurd he h, fun _ => ?_⟩
    · rw [hval]
      exact div_nonneg hsum0 (le_of_lt hminq)
    · rw [hval]
      exact (div_le_one hminq).mpr hsum1
    · rw [hval]
      exact div_mul_cancel₀ _ (ne_of_gt hminq)

/-! ### Claim C4: the two-match threshold -/

/-- C4 (amended): every candidate returned by the unified parser's
`_analyze_plan_containers` has at least two matched elements. -/
theorem analyze_containers_min_count (select : String → List String)
    (c : ContainerCandidate) (hc : c ∈ analyze_plan_containers select) :
    2 ≤ c.count := by
  have hm : c ∈ candidate_list select :=
    (perm_sortByConfidenceDesc (candidate_list select)).mem_iff.mp hc
  rcases List.mem_filterMap.mp hm with ⟨pat, _, heq⟩
  by_cases h2 : 2 ≤ (select pat).length
  · rw [if_pos h2] at heq
    cases Option.some.inj heq
    exact h2
  · rw [if_neg h2] at heq
    cases heq

/-- A select oracle with exactly two ".plan" elements. -/
def twoMatchSelect : String → List String :=
  fun s => if s = ".plan" then ["a", "b"] else []

/-- C4 witness: the single candidate produced by `twoMatchSelect`. -/
theorem analyze_containers_min_count_witness :
    2 ≤ (ContainerCandidate.mk ".plan" 2 "a"
      (calculate_container_confidence ["a", "b"])).count :=
  analyze_containers_min_count twoMatchSelect _ (by
    have h : analyze_plan_containers twoMatchSelect
        = [ContainerCandidate.mk ".plan" 2 "a"
            (calculate_container_confidence ["a", "b"])] := rfl
    rw [h]
    exact List.mem_singleton_self _)

/-- A select oracle in which ".plan" (and its attribute twin) matches one
single element; realizable by a page with one `class="plan"` element. -/
def oneMatchSelect : String → List String :=
  fun s => if s = ".plan" || s = "[class*=\"plan\"]" then ["solo plan"] else []

/-- C4 counterexample: several_site_analyzer.py's `analyze_page` returns
container candidates counting exactly one matched element. -/
theorem analyze_page_single_match_counterexample :
    (analyze_page_plan_containers oneMatchSelect).map PlanContainer.count = [1, 1] := by
  decide

/-! ### Claim C5: ordering of the candidate list -/

theorem filter_insertByConfidence (c : ContainerCandidate) (l : List ContainerCandidate)
    (q : ℚ) :
    (insertByConfidence c l).filter (fun d => decide (d.confidence = q))
      = if c.confidence = q
        then c :: l.filter (fun d => decide (d.confidence = q))
        else l.filter (fun d => decide (d.confidence = q)) := by
  induction l with
  | nil =>
    by_cases hc : c.confidence = q
    · simp [insertByConfidence, hc]
    · simp [insertByConfidence, hc]
  | cons d t ih =>
    unfold insertByConfidence
    by_cases hd : d.confidence ≤ c.confidence
    · rw [if_pos hd]
      by_cases hc : c.confidence = q
      · simp [List.filter_cons, hc]
      · simp [List.filter_cons, hc]
    · rw [if_neg hd]
      by_cases hc : c.confidence = q
      · have hdq : d.confidence ≠ q := fun h => hd (le_of_eq (h.trans hc.symm))
        simp [List.filter_cons, ih, hc, hdq]
      · simp [List.filter_cons, ih, hc]

/-- Stability of the sort: within each confidence value, the sorted list
keeps exactly the original subsequence. -/
theorem filter_sortByConfidenceDesc (l : List ContainerCandidate) (q : ℚ) :
    (sortByConfidenceDesc l).filter (fun d => decide (d.confidence = q))
      = l.filter (fun d => decide (d.confidence = q)) := by
  induction l with
  | nil => rfl
  | cons c t ih =>
    show (insertByConfidence c (sortByConfidenceDesc t)).filter
        (fun d => decide (d.confidence = q))
      = (c :: t).filter (fun d => decide (d.confidence = q))
    rw [filter_insertByConfidence, ih]
    by_cases hc : c.confidence = q
    · rw [if_pos hc]
      simp [List.filter_cons, hc]
    · rw [if_neg hc]
      simp [List.filter_cons, hc]

/-- C5 (amended): the analyzer's candidate list is sorted in descending
order of confidence and is a permutation of the generated candidates; the
sort is stable — for every confidence value, the candidates carrying it
appear in exactly their candidate-generation (pattern-list) order — so ties
are never reordered, in particular never by match count. -/
theorem analyze_containers_sorted (select : String → List String) :
    ((analyze_plan_containers select).Pairwise fun a b => b.confidence ≤ a.confidence)
    ∧ (analyze_plan_containers select).Perm (candidate_list select)
    ∧ ∀ q : ℚ, (analyze_plan_containers select).filter (fun c => decide (c.confidence = q))
        = (candidate_list select).filter (fun c => decide (c.confidence = q)) :=
  ⟨pairwise_sortByConfidenceDesc _, perm_sortByConfidenceDesc _,
   fun q => filter_sortByConfidenceDesc (candidate_list select) q⟩

theorem elemFrac_eval_zero (t : String)
    (h : (confidence_keywords.countP fun k => substrIn k.data (pyToLower t).data) = 0) :
    elemFrac t = 0 := by
  unfold elemFrac
  rw [h]
  norm_num

theorem conf_aa_bb_zero : calculate_container_confidence ["aa", "bb"] = 0 := by
  have h1 : elemFrac "aa" = 0 := elemFrac_eval_zero _ (by decide)
  have h2 : elemFrac "bb" = 0 := elemFrac_eval_zero _ (by decide)
  unfold calculate_container_confidence
  rw [if_neg (by decide)]
  simp [h1, h2]

theorem conf_cc_dd_ee_zero : calculate_container_confidence ["cc", "dd", "ee"] = 0 := by
  have h1 : elemFrac "cc" = 0 := elemFrac_eval_zero _ (by decide)
  have h2 : elemFrac "dd" = 0 := elemFrac_eval_zero _ (by decide)
  have h3 : elemFrac "ee" = 0 := elemFrac_eval_zero _ (by decide)
  unfold calculate_container_confidence
  rw [if_neg (by decide)]
  simp [h1, h2, h3]

/-- A page with two `class="plan"` elements and three `class="product"`
elements, none containing a domain keyword: every candidate scores 0. -/
def tieSelect : String → List String :=
  fun s =>
    if s = ".plan" || s = "[class*=\"plan\"]" then ["aa", "bb"]
    else if s = ".product" || s = "[class*=\"product\"]" then ["cc", "dd", "ee"]
    else []

/-- C5 counterexample: all four candidates have equal confidence 0, yet the
candidate with 2 matches precedes the candidate with 3 matches — ties keep
pattern order, they are not broken by higher match count. -/
theorem analyze_containers_tie_counterexample :
    ((analyze_plan_containers tieSelect).map fun c => c.count) = [2, 3, 2, 3]
    ∧ ((analyze_plan_containers tieSelect).map fun c => c.confidence) = [0, 0, 0, 0] := by
  have hcl : candidate_list tieSelect
      = [⟨".plan", 2, "aa", calculate_container_confidence ["aa", "bb"]⟩,
         ⟨".product", 3, "cc", calculate_container_confidence ["cc", "dd", "ee"]⟩,
         ⟨"[class*=\"plan\"]", 2, "aa", calculate_container_confidence ["aa", "bb"]⟩,
         ⟨"[class*=\"product\"]", 3, "cc", calculate_container_confidence ["cc", "dd", "ee"]⟩] :=
    rfl
  rw [conf_aa_bb_zero, conf_cc_dd_ee_zero] at hcl
  have hout : analyze_plan_containers tieSelect
      = [⟨".plan", 2, "aa", 0⟩, ⟨".product", 3, "cc", 0⟩,
         ⟨"[class*=\"plan\"]", 2, "aa", 0⟩, ⟨"[class*=\"product\"]", 3, "cc", 0⟩] := by
    unfold analyze_plan_containers
    rw [hcl]
    simp [sortByConfidenceDesc, insertByConfidence]
  rw [hout]
  exact ⟨rfl, rfl⟩

/-! ### Consent detection (several_site_analyzer.py `detect_cookie_banner`) -/

/-- The cookie keyword lists, in Python dict iteration order. -/
def cookie_keyword_lists : List (String × List String) :=
  [("norwegian", ["informasjonskapsler", "samtykke", "personvern", "cookies", "godta"]),
   ("english", ["cookies", "consent", "privacy", "accept", "gdpr", "tracking"]),
   ("common", ["cookie", "gdpr", "privacy policy", "data protection"])]

/-- The `text_indicators` list: one entry per (language, keyword) pair whose
keyword occurs in the page text, formatted as in the source f-string. -/
def found_keywords (page_text : String) : List String :=
  cookie_keyword_lists.flatMap fun p =>
    (p.2.filter fun k => substrIn (pyToLower k).data page_text.data).map
      fun k => k ++ " (" ++ p.1 ++ ")"

/-- The banner container selectors of `detect_cookie_banner`. -/
def banner_container_selectors : List String :=
  [".cookie-banner", ".gdpr-banner", ".consent-banner",
   ".privacy-notice", "#cookie-notice", "#gdpr-notice",
   "[class*=\"cookie\"]", "[class*=\"consent\"]", "[class*=\"gdpr\"]",
   "[id*=\"cookie\"]", "[id*=\"consent\"]", "[role=\"dialog\"]"]

/-- The accept-button selectors of `detect_cookie_banner`. -/
def accept_button_selectors : List String :=
  ["[data-testid*=\"accept\"]", "[data-cy*=\"accept\"]",
   ".cookie-accept", ".accept-cookies", ".gdpr-accept",
   "button[class*=\"accept\"]", "button[id*=\"accept\"]",
   "button:-soup-contains(\"Godta\")", "button:-soup-contains(\"Accept\")",
   "button:-soup-contains(\"Aksepter\")", "button:-soup-contains(\"OK\")",
   "[aria-label*=\"accept\"]", "[title*=\"accept\"]"]

/-- All cookie keywords, flattened in list order, as the source's nested
generator `for kw_list in cookie_keywords.values() for kw in kw_list`. -/
def all_cookie_keywords : List String :=
  cookie_keyword_lists.flatMap fun p => p.2

/-- The affirmative tokens required in an accept button's text. -/
def accept_affirm_words : List String :=
  ["godta", "accept", "ok", "aksepter"]

/-- Banner rows of `detect_cookie_banner`: for each banner selector, each
matched element whose stripped 200-character text prefix contains any
cookie keyword case-insensitively. `select` stands for the `soup.select`
collaborator, giving the `get_text()` of each matched element. -/
def banner_elements (select : String → List String) : List (String × String) :=
  banner_container_selectors.flatMap fun sel =>
    (select sel).filterMap fun txt =>
      let t : String := ⟨(pyStrip txt.data).take 200⟩
      if all_cookie_keywords.any fun kw => substrIn kw.data (pyToLower t).data then
        some (sel, t)
      else none

/-- Accept-button rows of `detect_cookie_banner`: the element's stripped
text must be non-empty and contain an affirmative token. -/
def accept_buttons (select : String → List String) : List (String × String) :=
  accept_button_selectors.flatMap fun sel =>
    (select sel).filterMap fun txt =>
      let t : String := ⟨pyStrip txt.data⟩
      if t ≠ "" ∧ (accept_affirm_words.any fun w => substrIn w.data (pyToLower t).data) then
        some (sel, t)
      else none

/-- The `detected` flag of `detect_cookie_banner`:
`len(found_keywords) >= 2 or banner elements found or accept buttons
found`. -/
def cookie_detected (select : String → List String) (page_text : String) : Bool :=
  decide (2 ≤ (found_keywords page_text).length)
    || decide (banner_elements select ≠ [])
    || decide (accept_buttons select ≠ [])

/-- Keyword hits counted the way the source counts them: once per language
list containing the keyword, so a keyword present in two lists contributes
two hits. -/
def keywordHitCount (page_text : String) : Nat :=
  (cookie_keyword_lists.map fun p =>
    (p.2.filter fun k => substrIn (pyToLower k).data page_text.data).length).sum

/-! ### Enrichment (src/utils.py `extract_trustpilot_data`) -/

/-- The enrichment triple: Trustpilot score, review count and review-page
URL, each nullable. The Python float score is modelled exactly in ℚ. -/
structure TrustResult where
  score : Option ℚ
  reviews : Option Nat
  url : Option String
deriving DecidableEq

/-- The all-null triple every failure path returns. -/
def trust_nulls : TrustResult := ⟨none, none, none⟩

/-- The parts of the first matching result card that
`extract_trustpilot_data` reads: the rating element's text, the
review-count element's text and the review link's href, each optional. -/
structure TrustCard where
  ratingText : Option String
  reviewsText : Option String
  linkHref : Option String
deriving DecidableEq

/-- Outcome of the Trustpilot navigation: `err` for any raised navigation
or content exception, otherwise the parsed page with its first matching
business card if any of the three card selectors matched. -/
inductive TrustPage
  | err : TrustPage
  | page : Option TrustCard → TrustPage
deriving DecidableEq

/-- Value of a digit run, most significant first. -/
def digitsToNat (l : List Char) : Nat :=
  l.foldl (fun acc c => acc * 10 + (c.toNat - 48)) 0

/-- Python `float()` on the plain decimal strings a rating text yields
(after the comma substitution): optional sign, digits with at most one dot
and a digit on at least one of its sides, surrounding whitespace allowed;
`none` where `float()` raises ValueError. Exponent and infinity forms,
which no rating text takes, are out of the modelled fragment. -/
def pyFloat (s : String) : Option ℚ :=
  let t := pyStrip s.data
  let signed : ℚ × List Char :=
    match t with
    | '+' :: r => (1, r)
    | '-' :: r => (-1, r)
    | r => (1, r)
  let (ip, r1) := takeDigits signed.2
  match r1 with
  | [] => if ip = [] then none else some (signed.1 * (digitsToNat ip : ℚ))
  | '.' :: r2 =>
    let (fp, r3) := takeDigits r2
    if r3 = [] ∧ (ip ≠ [] ∨ fp ≠ []) then
      some (signed.1 * ((digitsToNat ip : ℚ) + (digitsToNat fp : ℚ) / (10 : ℚ) ^ fp.length))
    else none
  | _ => none

/-- Review-count extraction: ASCII spaces removed, then
`re.search(r"(\d[\d\s]*)", ...)` and `int()` on the captured group. `none`
models the ValueError `int()` raises when the greedy group kept an internal
non-space whitespace character; `some none` is the no-digit case, where the
reviews field is simply null. -/
def reviewsParse (s : String) : Option (Option Nat) :=
  let t := s.data.filter fun c => c ≠ ' '
  match t.dropWhile (fun c => !c.isDigit) with
  | [] => some none
  | d :: rest =>
    let run := (d :: rest).takeWhile fun c => c.isDigit || pyIsSpace c
    let core := (run.reverse.dropWhile pyIsSpace).reverse
    if core.all Char.isDigit then some (some (digitsToNat core)) else none

/-- The score parse of the card body:
`float(rating_element.text.replace(",", ".")) if rating_element else None`.
`none` models the raised ValueError, `some` the computed score field. -/
def trustScoreStep (card : TrustCard) : Option (Option ℚ) :=
  match card.ratingText with
  | some s =>
    match pyFloat ⟨commaToDot s.data⟩ with
    | some q => some (some q)
    | none => none
  | none => some none

/-- The card body of `extract_trustpilot_data`: a raised parse error in the
score or review-count step falls into the `except` branch and yields the
all-null triple; otherwise each field parses individually, an absent
element giving a null field. -/
def trustCardResult (card : TrustCard) : TrustResult :=
  match trustScoreStep card with
  | none => trust_nulls
  | some score =>
    match reviewsParse (card.reviewsText.getD "") with
    | none => trust_nulls
    | some reviews =>
      { score := score, reviews := reviews,
        url := card.linkHref.map fun h => "https://no.trustpilot.com" ++ h }

/-- src/utils.py `extract_trustpilot_data`: an empty provider name, a
navigation exception, or a missing result card all yield the all-null
triple; otherwise the card body runs (see `trustCardResult`). -/
def extract_trustpilot_data (provider_name : String) (pg : TrustPage) : TrustResult :=
  if provider_name = "" then trust_nulls
  else
    match pg with
    | .err => trust_nulls
    | .page none => trust_nulls
    | .page (some card) => trustCardResult card

/-! ### The scraper record loop (src/scraper.py `fetch_and_process_page`) -/

/-- One record of `fetch_and_process_page`: the LLM-extracted name and the
remaining extracted fields, with the enrichment and timestamp columns the
loop fills in. -/
structure ScrapedRecord where
  name : String
  payload : List (String × String)
  trustpilot_score : Option ℚ := none
  trustpilot_reviews : Option Nat := none
  trustpilot_url : Option String := none
  last_updated : String := ""
deriving DecidableEq

/-- src/utils.py `is_duplicated`: literal membership of the raw name in the
session's seen set — no trimming, no case folding. -/
def is_duplicated (name : String) (seen_names : List String) : Bool :=
  seen_names.contains name

/-- The `record.update({...})` call adding the three Trustpilot columns. -/
def applyTrust (r : ScrapedRecord) (t : TrustResult) : ScrapedRecord :=
  { r with trustpilot_score := t.score, trustpilot_reviews := t.reviews,
           trustpilot_url := t.url }

/-- The record loop of `fetch_and_process_page`: a record with an empty or
already-seen name is skipped; otherwise Trustpilot data is added (for the
mobile_service_provider model), the timestamp column is set, the raw name
enters the seen set and the record is appended. `enrich` stands for
`fetch_trustpilot_reviews`, `today` for `datetime.now().strftime(...)`.
Returns the updated seen set and this call's records, in order. -/
def process_records (enrich : String → TrustResult) (model_type today : String) :
    List String → List ScrapedRecord → List String × List ScrapedRecord
  | seen, [] => (seen, [])
  | seen, r :: t =>
    if r.name = "" ∨ is_duplicated r.name seen = true then
      process_records enrich model_type today seen t
    else
      let r1 := if model_type = "mobile_service_provider" then applyTrust r (enrich r.name) else r
      let r2 := { r1 with last_updated := today }
      let rest := process_records enrich model_type today (r.name :: seen) t
      (rest.1, r2 :: rest.2)

/-- Modelled from the spec: the crawl driver (`crawl_data`, imported by
app.py and cli.py but absent from the sources) runs successive
`fetch_and_process_page` calls — pages of one or more targets — threading
one shared `seen_names` set through them and concatenating their record
lists in call order. -/
def run_pages (enrich : String → TrustResult) (model_type today : String) :
    List String → List (List ScrapedRecord) → List String × List ScrapedRecord
  | seen, [] => (seen, [])
  | seen, p :: ps =>
    let first := process_records enrich model_type today seen p
    let rest := run_pages enrich model_type today first.1 ps
    (rest.1, first.2 ++ rest.2)

/-! ### The unified parser's merge (unified_parser.py `parse_all_operators`) -/

/-- unified_parser.py / main.py `MobilePlan`. -/
structure MobilePlan where
  name : String
  operator : String
  price : String
  data : String
  calls : String := ""
  sms : String := ""
  validity : String := ""
  additional_info : String := ""
  source_url : String := ""
deriving DecidableEq

/-- Result of one operator pipeline as `asyncio.gather(...,
return_exceptions=True)` delivers it: a raised exception or a plan list. -/
inductive OperatorOutcome
  | exn : String → OperatorOutcome
  | ok : List MobilePlan → OperatorOutcome
deriving DecidableEq

/-- The merge loop of `parse_all_operators` (unified_parser.py; main.py is
identical): exceptions are logged and skipped, each successful operator's
plans are concatenated with `extend` — with no deduplication of any kind. -/
def merge_all_plans (results : List OperatorOutcome) : List MobilePlan :=
  results.foldl
    (fun acc r =>
      match r with
      | .exn _ => acc
      | .ok plans => acc ++ plans)
    []

/-! ### Claim C7: the detected flag -/

theorem found_keywords_length (page_text : String) :
    (found_keywords page_text).length = keywordHitCount page_text := by
  unfold found_keywords keywordHitCount
  rw [List.length_flatMap]
  refine congrArg List.sum (List.map_congr_left ?_)
  intro p _
  simp [List.length_map]

/-- C7 (amended): `detected` is true exactly when at least two keyword hits
were counted — a keyword is counted once per language list containing it,
so one keyword present in two lists already yields two hits — or at least
one banner-container element was found, or at least one accept-button
element was found. -/
theorem cookie_detected_iff (select : String → List String) (page_text : String) :
    cookie_detected select page_text = true ↔
      (2 ≤ keywordHitCount page_text
        ∨ banner_elements select ≠ [] ∨ accept_buttons select ≠ []) := by
  unfold cookie_detected
  simp only [Bool.or_eq_true, decide_eq_true_eq, found_keywords_length]
  exact or_assoc

/-- The select oracle of a page with no elements at all. -/
def emptySelect : String → List String := fun _ => []

/-- C7 counterexample: the page text "gdpr" contains exactly one distinct
consent keyword, yet the flag is true with no banner element and no accept
button, because "gdpr" sits in both the english and the common list and so
counts as two hits. -/
theorem cookie_detected_counterexample :
    cookie_detected emptySelect "gdpr" = true
    ∧ (all_cookie_keywords.dedup.filter fun k =>
        substrIn (pyToLower k).data ("gdpr" : String).data).length = 1
    ∧ banner_elements emptySelect = []
    ∧ accept_buttons emptySelect = [] := by
  refine ⟨?_, ?_, ?_, ?_⟩ <;> decide

/-! ### Claim C8: enrichment failure isolation -/

/-- Every way the Trustpilot lookup can fail: a raised navigation or
content exception, no matching result card, an unparseable rating text, or
a review count whose digit group `int()` rejects. -/
def trustFailed (pg : TrustPage) : Prop :=
  pg = .err ∨ pg = .page none ∨
    ∃ card, pg = .page (some card) ∧
      ((∃ s, card.ratingText = some s ∧ pyFloat ⟨commaToDot s.data⟩ = none)
        ∨ reviewsParse (card.reviewsText.getD "") = none)

/-- C8: any enrichment failure produces the all-null triple — exceptional
control flow is explicit data here, so nothing escapes the boundary — and
the enclosing record is still appended by the record loop with its
extracted fields intact and the three Trustpilot columns null. -/
theorem trustpilot_failure_isolated (name today : String) (pg : TrustPage)
    (seen : List String) (r : ScrapedRecord)
    (hf : trustFailed pg) (hn : r.name ≠ "") (hs : is_duplicated r.name seen = false) :
    extract_trustpilot_data name pg = trust_nulls
    ∧ (applyTrust r trust_nulls).name = r.name
    ∧ (applyTrust r trust_nulls).payload = r.payload
    ∧ (process_records (fun _ => extract_trustpilot_data name pg)
          "mobile_service_provider" today seen [r]).2
        = [{ r with trustpilot_score := none, trustpilot_reviews := none,
                    trustpilot_url := none, last_updated := today }] := by
  have hnull : extract_trustpilot_data name pg = trust_nulls := by
    by_cases hname : name = ""
    · unfold extract_trustpilot_data
      rw [if_pos hname]
    · rcases hf with h | h | ⟨card, hpg, hcase⟩
      · subst h
        unfold extract_trustpilot_data
        rw [if_neg hname]
      · subst h
        unfold extract_trustpilot_data
        rw [if_neg hname]
      · subst hpg
        have hcard : trustCardResult card = trust_nulls := by
          rcases hcase with ⟨s, hrt, hpf⟩ | hrv
          · have hstep : trustScoreStep card = none := by
              unfold trustScoreStep
              rw [hrt]
              show (match pyFloat ⟨commaToDot s.data⟩ with
                | some q => some (some q)
                | none => none) = none
              rw [hpf]
            unfold trustCardResult
            rw [hstep]
          · cases hstep : trustScoreStep card with
            | none =>
              unfold trustCardResult
              rw [hstep]
            | some sc =>
              unfold trustCardResult
              rw [hstep, hrv]
        unfold extract_trustpilot_data
        rw [if_neg hname]
        exact hcard
  have hcond : ¬(r.name = "" ∨ is_duplicated r.name seen = true) := by
    intro hor
    rcases hor with h | h
    · exact hn h
    · rw [hs] at h
      cases h
  refine ⟨hnull, rfl, rfl, ?_⟩
  unfold process_records
  rw [if_neg hcond]
  simp only [hnull]
  rfl

/-- C8 witness: a lookup whose page has no matching result card, enclosing
a record with one extracted payload field. -/
theorem trustpilot_failure_isolated_witness :
    extract_trustpilot_data "Telia" (.page none) = trust_nulls
    ∧ (applyTrust ⟨"Telia", [("monthly_price", "299")], none, none, none, ""⟩ trust_nulls).name
        = "Telia"
    ∧ (applyTrust ⟨"Telia", [("monthly_price", "299")], none, none, none, ""⟩ trust_nulls).payload
        = [("monthly_price", "299")]
    ∧ (process_records (fun _ => extract_trustpilot_data "Telia" (.page none))
          "mobile_service_provider" "2026-10-12" []
          [⟨"Telia", [("monthly_price", "299")], none, none, none, ""⟩]).2
        = [⟨"Telia", [("monthly_price", "299")], none, none, none, "2026-10-12"⟩] :=
  trustpilot_failure_isolated "Telia" "2026-10-12" (.page none) []
    ⟨"Telia", [("monthly_price", "299")], none, none, none, ""⟩
    (Or.inr (Or.inl rfl)) (by decide) (by decide)

/-! ### Claims C1 and C10: deduplication across the run -/

theorem is_duplicated_iff (name : String) (seen : List String) :
    is_duplicated name seen = true ↔ name ∈ seen := by
  unfold is_duplicated
  exact List.elem_iff

theorem process_records_cons_skip (enrich : String → TrustResult) (mt today : String)
    (seen : List String) (r : ScrapedRecord) (t : List ScrapedRecord)
    (h : r.name = "" ∨ is_duplicated r.name seen = true) :
    process_records enrich mt today seen (r :: t)
      = process_records enrich mt today seen t := by
  simp only [process_records]
  rw [if_pos h]

theorem process_records_cons_keep (enrich : String → TrustResult) (mt today : String)
    (seen : List String) (r : ScrapedRecord) (t : List ScrapedRecord)
    (h : ¬(r.name = "" ∨ is_duplicated r.name seen = true)) :
    process_records enrich mt today seen (r :: t)
      = ((process_records enrich mt today (r.name :: seen) t).1,
         ({ (if mt = "mobile_service_provider" then applyTrust r (enrich r.name) else r) with
             last_updated := today } : ScrapedRecord)
           :: (process_records enrich mt today (r.name :: seen) t).2) := by
  simp only [process_records]
  rw [if_neg h]

theorem run_pages_cons (enrich : String → TrustResult) (mt today : String)
    (seen : List String) (p : List ScrapedRecord) (ps : List (List ScrapedRecord)) :
    run_pages enrich mt today seen (p :: ps)
      = ((run_pages enrich mt today (process_records enrich mt today seen p).1 ps).1,
         (process_records enrich mt today seen p).2
           ++ (run_pages enrich mt today (process_records enrich mt today seen p).1 ps).2) :=
  rfl

theorem process_records_spec (enrich : String → TrustResult) (mt today : String) :
    ∀ (recs : List ScrapedRecord) (seen : List String),
      (((process_records enrich mt today seen recs).2.map fun r => r.name).Nodup)
      ∧ (∀ r ∈ (process_records enrich mt today seen recs).2, r.name ∉ seen ∧ r.name ≠ "")
      ∧ (∀ n, n ∈ (process_records enrich mt today seen recs).1 ↔
          (n ∈ seen ∨ n ∈ ((process_records enrich mt today seen recs).2.map fun r => r.name)))
      ∧ (((process_records enrich mt today seen recs).2.map fun r => r.name).Sublist
          (recs.map fun r => r.name))
      ∧ (∀ n, n ≠ "" → n ∉ seen → n ∈ (recs.map fun r => r.name) →
          n ∈ ((process_records enrich mt today seen recs).2.map fun r => r.name)) := by
  intro recs
  induction recs with
  | nil =>
    intro seen
    refine ⟨List.nodup_nil, by simp [process_records], ?_, by simp [process_records], ?_⟩
    · intro n
      simp [process_records]
    · intro n _ _ hmem
      simp at hmem
  | cons r t ih =>
    intro seen
    by_cases hskip : r.name = "" ∨ is_duplicated r.name seen = true
    · have hp : process_records enrich mt today seen (r :: t)
          = process_records enrich mt today seen t :=
        process_records_cons_skip enrich mt today seen r t hskip
      obtain ⟨ha, hb, hc, hd, he⟩ := ih seen
      rw [hp]
      refine ⟨ha, hb, hc, hd.cons _, ?_⟩
      intro n hn hns hmem
      rcases List.mem_cons.mp hmem with h1 | h1
      · exfalso
        rcases hskip with h2 | h2
        · rw [h1] at hn
          exact hn h2
        · rw [h1] at hns
          exact hns ((is_duplicated_iff r.name seen).mp h2)
      · exact he n hn hns h1
    · have hnm : r.name ≠ "" := fun h => hskip (Or.inl h)
      have hdup : is_duplicated r.name seen = false := by
        cases h2 : is_duplicated r.name seen with
        | false => rfl
        | true => exact absurd (Or.inr h2) hskip
      have hnsn : r.name ∉ seen :=
        fun h2 => hskip (Or.inr ((is_duplicated_iff r.name seen).mpr h2))
      have hp : process_records enrich mt today seen (r :: t)
          = ((process_records enrich mt today (r.name :: seen) t).1,
             ({ (if mt = "mobile_service_provider" then applyTrust r (enrich r.name) else r) with
                 last_updated := today } : ScrapedRecord)
               :: (process_records enrich mt today (r.name :: seen) t).2) :=
        process_records_cons_keep enrich mt today seen r t hskip
      have hr2name : ({ (if mt = "mobile_service_provider" then applyTrust r (enrich r.name)
          else r) with last_updated := today } : ScrapedRecord).name = r.name := by
        by_cases hmt : mt = "mobile_service_provider" <;> simp [hmt, applyTrust]
      obtain ⟨ha, hb, hc, hd, he⟩ := ih (r.name :: seen)
      rw [hp]
      refine ⟨?_, ?_, ?_, ?_, ?_⟩
      · rw [List.map_cons, hr2name]
        refine List.nodup_cons.mpr ⟨?_, ha⟩
        intro hmem
        rcases List.mem_map.mp hmem with ⟨x, hx, hxn⟩
        exact (hb x hx).1 (by rw [hxn]; exact List.mem_cons_self _ _)
      · intro x hx
        rcases List.mem_cons.mp hx with h1 | h1
        · rw [h1, hr2name]
          exact ⟨hnsn, hnm⟩
        · obtain ⟨h2, h3⟩ := hb x h1
          exact ⟨fun h4 => h2 (List.mem_cons_of_mem _ h4), h3⟩
      · intro n
        rw [List.map_cons, hr2name]
        constructor
        · intro h1
          rcases (hc n).mp h1 with h2 | h2
          · rcases List.mem_cons.mp h2 with h3 | h3
            · exact Or.inr (by rw [h3]; exact List.mem_cons_self _ _)
            · exact Or.inl h3
          · exact Or.inr (List.mem_cons_of_mem _ h2)
        · intro h1
          rcases h1 with h2 | h2
          · exact (hc n).mpr (Or.inl (List.mem_cons_of_mem _ h2))
          · rcases List.mem_cons.mp h2 with h3 | h3
            · exact (hc n).mpr (Or.inl (by rw [h3]; exact List.mem_cons_self _ _))
            · exact (hc n).mpr (Or.inr h3)
      · rw [List.map_cons, List.map_cons, hr2name]
        exact hd.cons₂ _
      · intro n hn hns hmem
        rw [List.map_cons, hr2name]
        by_cases hnr : n = r.name
        · rw [hnr]
          exact List.mem_cons_self _ _
        · rcases List.mem_cons.mp hmem with h1 | h1
          · exact absurd h1 hnr
          · refine List.mem_cons_of_mem _ (he n hn ?_ h1)
            intro h2
            rcases List.mem_cons.mp h2 with h3 | h3
            · exact hnr h3
            · exact hns h3

theorem run_pages_spec (enrich : String → TrustResult) (mt today : String) :
    ∀ (pages : List (List ScrapedRecord)) (seen : List String),
      (((run_pages enrich mt today seen pages).2.map fun r => r.name).Nodup)
      ∧ (∀ r ∈ (run_pages enrich mt today seen pages).2, r.name ∉ seen ∧ r.name ≠ "")
      ∧ (∀ n, n ∈ (run_pages enrich mt today seen pages).1 ↔
          (n ∈ seen ∨ n ∈ ((run_pages enrich mt today seen pages).2.map fun r => r.name)))
      ∧ (((run_pages enrich mt today seen pages).2.map fun r => r.name).Sublist
          (pages.flatten.map fun r => r.name))
      ∧ (∀ n, n ≠ "" → n ∉ seen → n ∈ (pages.flatten.map fun r => r.name) →
          n ∈ ((run_pages enrich mt today seen pages).2.map fun r => r.name)) := by
  intro pages
  induction pages with
  | nil =>
    intro seen
    refine ⟨List.nodup_nil, by simp [run_pages], ?_, by simp [run_pages], ?_⟩
    · intro n
      simp [run_pages]
    · intro n _ _ hmem
      simp at hmem
  | cons p ps ih =>
    intro seen
    obtain ⟨pa, pb, pc, pd, pe⟩ := process_records_spec enrich mt today p seen
    obtain ⟨ra, rb, rc, rd, re⟩ := ih (process_records enrich mt today seen p).1
    have hp : run_pages enrich mt today seen (p :: ps)
        = ((run_pages enrich mt today (process_records enrich mt today seen p).1 ps).1,
           (process_records enrich mt today seen p).2
             ++ (run_pages enrich mt today (process_records enrich mt today seen p).1 ps).2) :=
      run_pages_cons enrich mt today seen p ps
    have hfirstsub : ∀ n, n ∈ ((process_records enrich mt today seen p).2.map fun r => r.name) →
        n ∈ (process_records enrich mt today seen p).1 :=
      fun n h1 => (pc n).mpr (Or.inr h1)
    have hseensub : ∀ n, n ∈ seen → n ∈ (process_records enrich mt today seen p).1 :=
      fun n h1 => (pc n).mpr (Or.inl h1)
    rw [hp]
    refine ⟨?_, ?_, ?_, ?_, ?_⟩
    · rw [List.map_append]
      refine List.nodup_append.mpr ⟨pa, ra, ?_⟩
      intro n h1 h2
      rcases List.mem_map.mp h2 with ⟨x, hx, hxn⟩
      exact (rb x hx).1 (by rw [hxn]; exact hfirstsub n h1)
    · intro x hx
      rcases List.mem_append.mp hx with h1 | h1
      · exact pb x h1
      · obtain ⟨h2, h3⟩ := rb x h1
        exact ⟨fun h4 => h2 (hseensub _ h4), h3⟩
    · intro n
      rw [List.map_append, List.mem_append]
      constructor
      · intro h1
        rcases (rc n).mp h1 with h2 | h2
        · rcases (pc n).mp h2 with h3 | h3
          · exact Or.inl h3
          · exact Or.inr (Or.inl h3)
        · exact Or.inr (Or.inr h2)
      · intro h1
        rcases h1 with h2 | h2 | h2
        · exact (rc n).mpr (Or.inl (hseensub n h2))
        · exact (rc n).mpr (Or.inl (hfirstsub n h2))
        · exact (rc n).mpr (Or.inr h2)
    · rw [List.map_append, List.flatten_cons, List.map_append]
      exact pd.append rd
    · intro n hn hns hmem
      rw [List.map_append, List.mem_append]
      rw [List.flatten_cons, List.map_append, List.mem_append] at hmem
      by_cases hf : n ∈ ((process_records enrich mt today seen p).2.map fun r => r.name)
      · exact Or.inl hf
      · have hns2 : n ∉ (process_records enrich mt today seen p).1 := by
          intro h1
          rcases (pc n).mp h1 with h2 | h2
          · exact hns h2
          · exact hf h2
        rcases hmem with h1 | h1
        · exact absurd (pe n hn hns h1) hf
        · exact Or.inr (re n hn hns2 h1)

/-- The record-loop body applied to one kept record: Trustpilot data added
for the mobile_service_provider model, the timestamp column set; name and
payload are untouched. Definitionally the record built inside
`process_records`. -/
def finalizeRecord (enrich : String → TrustResult) (model_type today : String)
    (r : ScrapedRecord) : ScrapedRecord :=
  { (if model_type = "mobile_service_provider" then applyTrust r (enrich r.name) else r) with
      last_updated := today }

/-- The claim's deduplication rule, written as a reference pass following
its words: scanning the records in order, a record whose raw name is empty
or already seen is dropped; otherwise it is kept — so the first-seen record
per name is the one kept, in input order — and its name enters the seen
set. -/
def firstSeenPass (seen : List String) : List ScrapedRecord → List String × List ScrapedRecord
  | [] => (seen, [])
  | r :: t =>
    if r.name = "" ∨ r.name ∈ seen then firstSeenPass seen t
    else
      let rest := firstSeenPass (r.name :: seen) t
      (rest.1, r :: rest.2)

theorem finalizeRecord_name (enrich : String → TrustResult) (model_type today : String)
    (r : ScrapedRecord) : (finalizeRecord enrich model_type today r).name = r.name := by
  unfold finalizeRecord
  by_cases hmt : model_type = "mobile_service_provider" <;> simp [hmt, applyTrust]

theorem finalizeRecord_payload (enrich : String → TrustResult) (model_type today : String)
    (r : ScrapedRecord) : (finalizeRecord enrich model_type today r).payload = r.payload := by
  unfold finalizeRecord
  by_cases hmt : model_type = "mobile_service_provider" <;> simp [hmt, applyTrust]

theorem firstSeenPass_cons_skip (seen : List String) (r : ScrapedRecord)
    (t : List ScrapedRecord) (h : r.name = "" ∨ r.name ∈ seen) :
    firstSeenPass seen (r :: t) = firstSeenPass seen t := by
  simp only [firstSeenPass]
  rw [if_pos h]

theorem firstSeenPass_cons_keep (seen : List String) (r : ScrapedRecord)
    (t : List ScrapedRecord) (h : ¬(r.name = "" ∨ r.name ∈ seen)) :
    firstSeenPass seen (r :: t)
      = ((firstSeenPass (r.name :: seen) t).1, r :: (firstSeenPass (r.name :: seen) t).2) := by
  simp only [firstSeenPass]
  rw [if_neg h]

theorem process_records_eq_pass (enrich : String → TrustResult) (mt today : String) :
    ∀ (recs : List ScrapedRecord) (seen : List String),
      (process_records enrich mt today seen recs).1 = (firstSeenPass seen recs).1
      ∧ (process_records enrich mt today seen recs).2
          = ((firstSeenPass seen recs).2).map (finalizeRecord enrich mt today) := by
  intro recs
  induction recs with
  | nil => intro seen; exact ⟨rfl, rfl⟩
  | cons r t ih =>
    intro seen
    by_cases h : r.name = "" ∨ r.name ∈ seen
    · have h2 : r.name = "" ∨ is_duplicated r.name seen = true := by
        rcases h with h1 | h1
        · exact Or.inl h1
        · exact Or.inr ((is_duplicated_iff r.name seen).mpr h1)
      rw [process_records_cons_skip enrich mt today seen r t h2,
        firstSeenPass_cons_skip seen r t h]
      exact ih seen
    · have h2 : ¬(r.name = "" ∨ is_duplicated r.name seen = true) := by
        intro h3
        rcases h3 with h4 | h4
        · exact h (Or.inl h4)
        · exact h (Or.inr ((is_duplicated_iff r.name seen).mp h4))
      rw [process_records_cons_keep enrich mt today seen r t h2,
        firstSeenPass_cons_keep seen r t h]
      obtain ⟨ha, hb⟩ := ih (r.name :: seen)
      refine ⟨ha, ?_⟩
      rw [List.map_cons, hb]
      rfl

theorem firstSeenPass_append (a b : List ScrapedRecord) :
    ∀ seen, firstSeenPass seen (a ++ b)
      = ((firstSeenPass (firstSeenPass seen a).1 b).1,
         (firstSeenPass seen a).2 ++ (firstSeenPass (firstSeenPass seen a).1 b).2) := by
  induction a with
  | nil => intro seen; rfl
  | cons r t ih =>
    intro seen
    by_cases h : r.name = "" ∨ r.name ∈ seen
    · rw [List.cons_append, firstSeenPass_cons_skip seen r (t ++ b) h,
        firstSeenPass_cons_skip seen r t h]
      exact ih seen
    · rw [List.cons_append, firstSeenPass_cons_keep seen r (t ++ b) h,
        firstSeenPass_cons_keep seen r t h]
      rw [ih (r.name :: seen)]
      rfl

theorem run_pages_eq_pass (enrich : String → TrustResult) (mt today : String) :
    ∀ (pages : List (List ScrapedRecord)) (seen : List String),
      (run_pages enrich mt today seen pages).1 = (firstSeenPass seen pages.flatten).1
      ∧ (run_pages enrich mt today seen pages).2
          = ((firstSeenPass seen pages.flatten).2).map (finalizeRecord enrich mt today) := by
  intro pages
  induction pages with
  | nil => intro seen; exact ⟨rfl, rfl⟩
  | cons p ps ih =>
    intro seen
    obtain ⟨pa, pb⟩ := process_records_eq_pass enrich mt today p seen
    obtain ⟨ra, rb⟩ := ih (process_records enrich mt today seen p).1
    rw [run_pages_cons, List.flatten_cons, firstSeenPass_append p ps.flatten seen]
    constructor
    · rw [ra, pa]
    · rw [pb, rb, pa, List.map_append]

/-- C1 (amended): across any sequence of `fetch_and_process_page` calls
sharing one `seen_names` set, the concatenated record list is exactly the
first-seen filter of the input stream: among records with a non-empty name
not in the initial seen set, the first record bearing each name is the one
kept, in input order, finalized with the enrichment and timestamp columns
but with its name and payload intact. Consequently kept names are pairwise
distinct, non-empty, not previously seen, form a sublist of the input name
sequence, and every eligible name does appear. The unified parser's own
merge has no such property (see the counterexample). -/
theorem scraper_run_dedup (enrich : String → TrustResult) (model_type today : String)
    (seen : List String) (pages : List (List ScrapedRecord)) :
    ((run_pages enrich model_type today seen pages).2
      = ((firstSeenPass seen pages.flatten).2).map (finalizeRecord enrich model_type today))
    ∧ (∀ r : ScrapedRecord, (finalizeRecord enrich model_type today r).name = r.name
        ∧ (finalizeRecord enrich model_type today r).payload = r.payload)
    ∧ (((run_pages enrich model_type today seen pages).2.map fun r => r.name).Nodup)
    ∧ (∀ r ∈ (run_pages enrich model_type today seen pages).2, r.name ∉ seen ∧ r.name ≠ "")
    ∧ (((run_pages enrich model_type today seen pages).2.map fun r => r.name).Sublist
        (pages.flatten.map fun r => r.name))
    ∧ (∀ n, n ≠ "" → n ∉ seen → n ∈ (pages.flatten.map fun r => r.name) →
        n ∈ ((run_pages enrich model_type today seen pages).2.map fun r => r.name)) := by
  obtain ⟨ha, hb, _, hd, he⟩ := run_pages_spec enrich model_type today pages seen
  refine ⟨(run_pages_eq_pass enrich model_type today pages seen).2, ?_, ha, hb, hd, he⟩
  intro r
  exact ⟨finalizeRecord_name enrich model_type today r,
    finalizeRecord_payload enrich model_type today r⟩

/-- Plan Telia Frihet as the Telia pipeline extracts it. -/
def teliaFrihetA : MobilePlan :=
  { name := "Telia Frihet", operator := "Telia", price := "299 kr", data := "50 GB",
    source_url := "https://www.telia.no/privat/mobil/abonnement" }

/-- The same plan name extracted by a second target. -/
def teliaFrihetB : MobilePlan :=
  { name := "Telia Frihet", operator := "Telenor", price := "299 kr", data := "Unlimited",
    source_url := "https://www.telenor.no/privat/mobil/abonnement" }

/-- C1 counterexample: two targets both producing an item named
"Telia Frihet" — the merged run of `parse_all_operators` keeps both, so the
merged list does not hold at most one item per distinct name. -/
theorem merge_duplicate_names_counterexample :
    (merge_all_plans [.ok [teliaFrihetA], .ok [teliaFrihetB]]).map (fun p => p.name)
      = ["Telia Frihet", "Telia Frihet"] := by
  decide

/-- C10: the seen test is literal string equality on the raw extracted
name: records whose non-empty names are pairwise distinct as raw strings —
in particular names differing only in letter case or in surrounding
whitespace — are all kept, in order, none filtered as a duplicate. -/
theorem dedup_exact_names (enrich : String → TrustResult) (model_type today : String)
    (seen : List String) (recs : List ScrapedRecord)
    (h1 : ∀ r ∈ recs, r.name ≠ "")
    (h2 : ∀ r ∈ recs, r.name ∉ seen)
    (h3 : (recs.map fun r => r.name).Nodup) :
    ((process_records enrich model_type today seen recs).2.map fun r => r.name)
      = recs.map fun r => r.name := by
  induction recs generalizing seen with
  | nil => rfl
  | cons r t ih =>
    have hnm : r.name ≠ "" := h1 r (List.mem_cons_self _ _)
    have hns : r.name ∉ seen := h2 r (List.mem_cons_self _ _)
    have hskip : ¬(r.name = "" ∨ is_duplicated r.name seen = true) := by
      intro h4
      rcases h4 with h5 | h5
      · exact hnm h5
      · exact hns ((is_duplicated_iff r.name seen).mp h5)
    have hp : process_records enrich model_type today seen (r :: t)
        = ((process_records enrich model_type today (r.name :: seen) t).1,
           ({ (if model_type = "mobile_service_provider" then applyTrust r (enrich r.name)
               else r) with last_updated := today } : ScrapedRecord)
             :: (process_records enrich model_type today (r.name :: seen) t).2) :=
      process_records_cons_keep enrich model_type today seen r t hskip
    have hr2name : ({ (if model_type = "mobile_service_provider" then applyTrust r (enrich r.name)
        else r) with last_updated := today } : ScrapedRecord).name = r.name := by
      by_cases hmt : model_type = "mobile_service_provider" <;> simp [hmt, applyTrust]
    rw [hp, List.map_cons, List.map_cons, hr2name]
    rw [List.map_cons] at h3
    have h3 := List.nodup_cons.mp h3
    congr 1
    refine ih (r.name :: seen) (fun x hx => h1 x (List.mem_cons_of_mem _ hx)) ?_ h3.2
    intro x hx h4
    rcases List.mem_cons.mp h4 with h5 | h5
    · exact h3.1 (h5 ▸ List.mem_map_of_mem (fun q => q.name) hx)
    · exact h2 x (List.mem_cons_of_mem _ hx) h5

/-- C10 witness: three names equal up to case and surrounding whitespace —
"Telia Frihet", "telia frihet", "Telia Frihet " — are all kept, even with a
fourth case variant already in the seen set. -/
theorem dedup_exact_names_witness :
    ((process_records (fun _ => trust_nulls) "mobile_service_provider" "2026-10-12"
        ["TELIA FRIHET"]
        [⟨"Telia Frihet", [], none, none, none, ""⟩,
         ⟨"telia frihet", [], none, none, none, ""⟩,
         ⟨"Telia Frihet ", [], none, none, none, ""⟩]).2.map fun r => r.name)
      = ["Telia Frihet", "telia frihet", "Telia Frihet "] :=
  dedup_exact_names (fun _ => trust_nulls) "mobile_service_provider" "2026-10-12"
    ["TELIA FRIHET"] _ (by decide) (by decide) (by decide)

end AICompare
